import Mathlib

/-!
Verification of the quad-tree spatial index (`src/spatial/quadtree.js`).

The `QuadTree` class itself is embedded directly from the source.  Its three
collaborators (`utils/list.js`, `spatial/quadtree-node.js`,
`spatial/quadtree-item.js`) are imported by the source but their files are not
part of the source tree we were given, so their observable behaviour is
modelled from the specification (sections 2-4), as flagged on each such
definition.

Modelling conventions:
  * items are identified by a natural-number id; the mutable fields of a
    `QuadTreeItem` live in a `Store : ItemId → ItemData`;
  * the flag bitset {ATTACHED, SELECTED, QUEUED} is represented by three
    booleans;
  * the doubly-linked `List` values become Lean `List ItemId`; the selection
    cursor `nextItem` becomes the remaining traversal suffix (in traversal
    order), which is equivalent as long as the list is not mutated during an
    iteration (none of the verified operations do);
  * `notifyPosition` is an external callback, so `update` returns the trace of
    notified item ids next to the new state;
  * `updateItem` can throw, so it returns `Except String TreeState`.
-/

namespace CherryQuadTree

/-- Axis-aligned rectangle with corners and center, as used for
`insertionBounds` and query regions (the `Rect` geometry primitive is
external to the core). -/
structure Rect where
  x1 : Int
  y1 : Int
  x2 : Int
  y2 : Int
  cx : Int
  cy : Int
deriving DecidableEq, Repr

/-- Modelled from the spec: the mutable fields of a `QuadTreeItem`
(`spatial/quadtree-item.js` is not in the given source tree).  §3: bounds,
integer `zindex`, the flag bitset {ATTACHED, SELECTED, QUEUED} (as three
booleans) and the `selectedIndex` ordinal written during selection. -/
structure ItemData where
  insertionBounds : Rect
  zindex : Int
  attached : Bool
  selected : Bool
  queued : Bool
  selectedIndex : Int
deriving DecidableEq, Repr

/-- Items are referenced by identity; we use an id into a store. -/
abbrev ItemId := Nat

/-- The mutable item fields, indexed by item id. -/
abbrev Store := ItemId → ItemData

/-- Point update of a store. -/
def setStore (s : Store) (id : ItemId) (d : ItemData) : Store :=
  fun j => if j = id then d else s j

/-- Type of ordering comparators: the three axis-direction flags
(`xd`, `yd`, `zd` read from the tree at call time), the two items'
insertion bounds `a`, `b` and the two items `p`, `q` themselves. -/
def Comparator := Bool → Bool → Bool → Rect → Rect → ItemData → ItemData → Bool

/-- State of a `QuadTree`.  The node tree is modelled by its observable
content: the root extents (`rootX1..rootY2`) and the linear `items` list of
attached items.  `cursor` is the `nextItem` traversal remainder. -/
structure TreeState where
  rootX1 : Int
  rootY1 : Int
  rootX2 : Int
  rootY2 : Int
  nodeCapacity : Int
  store : Store
  items : List ItemId
  orderedItems : List ItemId
  updateQueue : List ItemId
  cursor : List ItemId
  selectedCount : Int
  selectedIndex : Int
  isReverse : Bool
  visible : Bool
  xd : Bool
  yd : Bool
  zd : Bool
  comp : Comparator

/-- `COMPARATOR_DEFAULT_YX` from the source: z-layer first (XOR'd with `zd`),
then `y1` (XOR'd with `yd`), then `x1` (XOR'd with `xd`). -/
def COMPARATOR_DEFAULT_YX : Comparator := fun xd yd zd a b p q =>
  (xor (decide (p.zindex < q.zindex)) zd) ||
    (p.zindex == q.zindex &&
      ((xor (decide (a.y1 < b.y1)) yd) ||
        (a.y1 == b.y1 && xor (decide (a.x1 < b.x1)) xd)))

/-- `COMPARATOR_DEFAULT_XY` from the source. -/
def COMPARATOR_DEFAULT_XY : Comparator := fun xd yd zd a b p q =>
  (xor (decide (p.zindex < q.zindex)) zd) ||
    (p.zindex == q.zindex &&
      ((xor (decide (a.x1 < b.x1)) xd) ||
        (a.x1 == b.x1 && xor (decide (a.y1 < b.y1)) yd)))

/-- `COMPARATOR_MANHATTAN` from the source: z-layer first (XOR'd with `zd`),
then the Manhattan sum of the centers; note it reads neither `xd` nor `yd`. -/
def COMPARATOR_MANHATTAN : Comparator := fun _ _ zd a b p q =>
  (xor (decide (p.zindex < q.zindex)) zd) ||
    (p.zindex == q.zindex && decide (a.cx + a.cy < b.cx + b.cy))

/-- `COMPARATOR_Y2` from the source. -/
def COMPARATOR_Y2 : Comparator := fun xd yd zd a b p q =>
  (xor (decide (p.zindex < q.zindex)) zd) ||
    (p.zindex == q.zindex &&
      ((xor (decide (a.y2 < b.y2)) yd) ||
        (a.y2 == b.y2 && xor (decide (a.x1 ≤ b.x1)) xd)))

/-- `COMPARATOR_Y1` from the source. -/
def COMPARATOR_Y1 : Comparator := fun _ yd _ a b p q =>
  xor (decide (a.y1 + p.zindex < b.y1 + q.zindex)) yd

/-- `COMPARATOR_X2` from the source. -/
def COMPARATOR_X2 : Comparator := fun xd _ _ a b p q =>
  xor (decide (a.x2 + p.zindex < b.x2 + q.zindex)) xd

/-- `COMPARATOR_X1` from the source. -/
def COMPARATOR_X1 : Comparator := fun xd _ _ a b p q =>
  xor (decide (a.x1 + p.zindex < b.x1 + q.zindex)) xd

/-- `isBefore` from the source: delegates to the active comparator with both
items' insertion bounds and the items themselves. -/
def isBefore (st : TreeState) (p q : ItemId) : Bool :=
  st.comp st.xd st.yd st.zd (st.store p).insertionBounds (st.store q).insertionBounds
    (st.store p) (st.store q)

/-- Sorted-insertion kernel of `addItemOrdered`: walk the list front to back
and insert before the first element the new item `isBefore`; otherwise push
at the end. -/
def insertOrdered (ib : ItemId → ItemId → Bool) (id : ItemId) : List ItemId → List ItemId
  | [] => [id]
  | y :: rest => if ib id y then id :: y :: rest else y :: insertOrdered ib id rest

/-- `addItemOrdered` from the source. -/
def addItemOrdered (st : TreeState) (id : ItemId) : TreeState :=
  { st with orderedItems := insertOrdered (isBefore st) id st.orderedItems }

/-- `reorderItems` from the source: rebuild `orderedItems` by scanning the
old list front to back and sorted-inserting each item into a fresh list. -/
def reorderItems (st : TreeState) : TreeState :=
  { st with
    orderedItems := st.orderedItems.foldl (fun acc id => insertOrdered (isBefore st) id acc) [] }

/-- `setComparator` from the source (the source additionally short-circuits
when the very same function object is passed, which is extensionally a
no-op, so only the assignment is modelled). -/
def setComparator (st : TreeState) (c : Comparator) : TreeState :=
  { st with comp := c }

/-- `setXd` from the source. -/
def setXd (st : TreeState) (v : Bool) : Bool × TreeState :=
  if st.xd == v then (false, st) else (true, { st with xd := v })

/-- `setYd` from the source. -/
def setYd (st : TreeState) (v : Bool) : Bool × TreeState :=
  if st.yd == v then (false, st) else (true, { st with yd := v })

/-- `setZd` from the source. -/
def setZd (st : TreeState) (v : Bool) : Bool × TreeState :=
  if st.zd == v then (false, st) else (true, { st with zd := v })

/-- Containment of an item's bounds in the root extents. -/
def boundsInsideRoot (st : TreeState) (b : Rect) : Bool :=
  decide (st.rootX1 ≤ b.x1) && decide (b.x2 ≤ st.rootX2) &&
    decide (st.rootY1 ≤ b.y1) && decide (b.y2 ≤ st.rootY2)

/-- Modelled from the spec: `QuadTreeNode.addItem`
(`spatial/quadtree-node.js` is not in the given source tree).  §4.1: the
insert fails (returns false, no state change) iff the item's bounds are not
fully contained in the root's bounds; on success the item is attached
(ATTACHED set, per §3/§4.2) and recorded in the tree's linear item list.
The node-internal subdivision bookkeeping is not observable through the
operations verified here. -/
def rootAddItem (st : TreeState) (id : ItemId) : Bool × TreeState :=
  if boundsInsideRoot st (st.store id).insertionBounds then
    (true,
      { st with
        store := setStore st.store id { st.store id with attached := true },
        items := st.items ++ [id] })
  else
    (false, st)

/-- Modelled from the spec: `QuadTreeNode.removeItem`
(`spatial/quadtree-node.js` is not in the given source tree).  §4.1: locates
the node holding the (attached) item through its back-reference and unlinks
it; ATTACHED is cleared (§4.2) and the item leaves the linear item list. -/
def rootRemoveItem (st : TreeState) (id : ItemId) : Bool × TreeState :=
  if (st.store id).attached then
    (true,
      { st with
        store := setStore st.store id { st.store id with attached := false },
        items := st.items.erase id })
  else
    (false, st)

/-- `addItem` from the source: delegate to the root insert; on success also
insert into the ordered list. -/
def addItem (st : TreeState) (id : ItemId) : Bool × TreeState :=
  let r := rootAddItem st id
  if r.1 then (true, addItemOrdered r.2 id) else (false, r.2)

/-- `removeItem` from the source: no-op success when not ATTACHED; otherwise
detach from the node and remove from `orderedItems` (the `List.remove` of the
node obtained by `sgetNode` removes the first occurrence of the item). -/
def removeItem (st : TreeState) (id : ItemId) : Bool × TreeState :=
  if !(st.store id).attached then
    (true, st)
  else
    let r := rootRemoveItem st id
    if r.1 then (true, { r.2 with orderedItems := r.2.orderedItems.erase id })
    else (false, st)

/-- `updateItem` from the source: remove, re-add (throwing when the re-add
fails), then enqueue into the update queue unless already QUEUED (the
modelled `List.push` appends at the tail; §4.2 prescribes FIFO draining). -/
def updateItem (st : TreeState) (id : ItemId) : Except String TreeState :=
  let st1 := (removeItem st id).2
  let r := addItem st1 id
  if r.1 then
    if (r.2.store id).queued then Except.ok r.2
    else
      Except.ok
        { r.2 with
          updateQueue := r.2.updateQueue ++ [id],
          store := setStore r.2.store id { r.2.store id with queued := true } }
  else
    Except.error "Unable to re-attach item to quadtree."

/-- Drain kernel of `update`: pop each queued item, clear its QUEUED flag and
record it in the notification trace. -/
def updateLoop : List ItemId → Store → List ItemId × Store
  | [], s => ([], s)
  | id :: rest, s =>
      let r := updateLoop rest (setStore s id { s id with queued := false })
      (id :: r.1, r.2)

/-- `update` from the source, with the `notifyPosition` callbacks made
observable as the returned trace.  Modelled from the spec where it depends on
the missing `utils/list.js`: §4.2 says `update()` drains the pending-update
queue FIFO, so `pop` removes from the front. -/
def update (st : TreeState) : List ItemId × TreeState :=
  let r := updateLoop st.updateQueue st.store
  (r.1, { st with updateQueue := [], store := r.2 })

/-- Intersection test of a query rectangle against item bounds.  Modelled
from the spec: the `Rect` geometry module (with its intersection test) is
external to the given source tree; §4.1 only requires "bounds intersect
rect", here the standard closed AABB overlap test. -/
def rectsIntersect (r b : Rect) : Bool :=
  decide (r.x1 ≤ b.x2) && decide (b.x1 ≤ r.x2) &&
    decide (r.y1 ≤ b.y2) && decide (b.y1 ≤ r.y2)

/-- Whether an item passes the selection region and filter; a `none` region
means "select everything" and a `none` filter accepts everything. -/
def selectMatch (rect : Option Rect) (filter : Option (ItemData → Bool)) (d : ItemData) : Bool :=
  (match rect with
   | none => true
   | some r => rectsIntersect r d.insertionBounds) &&
  (match filter with
   | none => true
   | some f => f d)

/-- `selectItems` from the source: reset the selection counters, have the
root mark every matching attached item SELECTED (counting each), and aim the
cursor at the relevant end of the full ordered list.  The recursive node walk
is modelled from the spec (§4.1 `selectInRegion`): it marks exactly the
owned items that intersect the region and pass the filter, which across the
whole tree are the matching items of the linear item list. -/
def selectItems (st : TreeState) (rect : Option Rect) (filter : Option (ItemData → Bool))
    (isRev : Option Bool) : Int × TreeState :=
  let isReverse := isRev.getD st.isReverse
  let cnt : Int := st.items.countP (fun id => selectMatch rect filter (st.store id))
  let store' : Store := fun id =>
    if st.items.contains id && selectMatch rect filter (st.store id) then
      { st.store id with selected := true }
    else st.store id
  (cnt,
    { st with
      selectedCount := cnt,
      selectedIndex := 0,
      store := store',
      cursor := if isReverse then st.orderedItems.reverse else st.orderedItems })

/-- `getNextSelected` from the source: advance the cursor past non-SELECTED
items; when a SELECTED item is found, clear its flag, stamp its
`selectedIndex`, bump the ordinal, decrement the remaining count and return
it; when the list is exhausted return null. -/
def getNextSelected (st : TreeState) : Option ItemId × TreeState :=
  match st.cursor.dropWhile (fun id => !(st.store id).selected) with
  | [] => (none, { st with cursor := [] })
  | id :: rest =>
      (some id,
        { st with
          store := setStore st.store id
            { st.store id with selected := false, selectedIndex := st.selectedIndex },
          cursor := rest,
          selectedIndex := st.selectedIndex + 1,
          selectedCount := st.selectedCount - 1 })

/-- Fuel-bounded repetition of `getNextSelected` until it returns null,
collecting the returned items in order. -/
def drainAux : Nat → TreeState → List ItemId × TreeState
  | 0, st => ([], st)
  | fuel + 1, st =>
      match getNextSelected st with
      | (none, st') => ([], st')
      | (some id, st') =>
          let r := drainAux fuel st'
          (id :: r.1, r.2)

/-- Repeatedly call `getNextSelected` until it returns null (the cursor can
only shrink, so `cursor.length + 1` calls always suffice). -/
def drainAll (st : TreeState) : List ItemId × TreeState :=
  drainAux (st.cursor.length + 1) st

/-- `__ctor` from the source: fresh tree over the given extents, with empty
lists and the default comparator.  The caller-owned items of the `store` are
not yet attached. -/
def mkQuadTree (x1 y1 x2 y2 : Int) (cap : Int) (s : Store) : TreeState :=
  { rootX1 := x1, rootY1 := y1, rootX2 := x2, rootY2 := y2,
    nodeCapacity := cap,
    store := s,
    items := [], orderedItems := [], updateQueue := [], cursor := [],
    selectedCount := 0, selectedIndex := 0,
    isReverse := false, visible := true,
    xd := false, yd := false, zd := false,
    comp := COMPARATOR_DEFAULT_YX }

/-! ### Concrete example states used by the counterexamples and witnesses,
and the derived sequence/replay operations -/

/-- A 10×10 box at the origin. -/
def boxA : Rect := { x1 := 0, y1 := 0, x2 := 10, y2 := 10, cx := 5, cy := 5 }

/-- Fresh (detached, unflagged) item data over a given box. -/
def freshItem (r : Rect) (z : Int) : ItemData :=
  { insertionBounds := r, zindex := z, attached := false, selected := false,
    queued := false, selectedIndex := 0 }

/-- A store where every id holds the same fresh item over `boxA`. -/
def uniformStore : Store := fun _ => freshItem boxA 0

/-- A small tree spanning -100..100 with capacity 4 over `uniformStore`. -/
def baseTree : TreeState := mkQuadTree (-100) (-100) 100 100 4 uniformStore

/-- Witness for C9: a 1×1 tree cannot hold the 10×10 box of item 0. -/
def tinyTree : TreeState := mkQuadTree 0 0 1 1 4 uniformStore

/-- A state whose cursor has run past every selected item while
`selectedCount` is still positive (as arises when an item was SELECTED
before `selectItems` ran, so it was counted a second time but its flag could
only be cleared once). -/
def staleSelectionTree : TreeState :=
  { baseTree with cursor := [0], selectedCount := 1 }

/-- A tree with two items of identical bounds and z-index, both attached and
already in the ordered list. -/
def duplicatePairTree : TreeState :=
  { baseTree with
    store := fun _ => { freshItem boxA 0 with attached := true },
    items := [0, 1],
    orderedItems := [0, 1] }

/-- Bounds for two items that tie on Z and on X but differ on Y. -/
def boxLowY : Rect := { x1 := 0, y1 := 0, x2 := 10, y2 := 10, cx := 5, cy := 0 }

/-- Same box shifted in Y only (same `x1`, same `cx`). -/
def boxHighY : Rect := { x1 := 0, y1 := 1, x2 := 10, y2 := 11, cx := 5, cy := 1 }

/-- A tree using `COMPARATOR_MANHATTAN` over two attached items that tie on
Z and X and differ on Y. -/
def manhattanTree : TreeState :=
  { baseTree with
    comp := COMPARATOR_MANHATTAN,
    store := fun j =>
      if j = 0 then { freshItem boxLowY 0 with attached := true }
      else { freshItem boxHighY 0 with attached := true },
    items := [0, 1],
    orderedItems := [0, 1] }

/-- Store with item 0 over `boxLowY` and every other id over `boxHighY`, all
attached and unflagged. -/
def sortedPairStore : Store := fun j =>
  if j = 0 then { freshItem boxLowY 0 with attached := true }
  else { freshItem boxHighY 0 with attached := true }

/-- A well-formed two-item tree whose ordered list is sorted for the default
comparator. -/
def sortedPairTree : TreeState :=
  { baseTree with store := sortedPairStore, items := [0, 1], orderedItems := [0, 1] }

/-- Query region covering both example items. -/
def queryBox : Rect := { x1 := -1, y1 := -1, x2 := 20, y2 := 20, cx := 9, cy := 9 }

/-- A call in a client interaction sequence. -/
inductive Op where
  | add (id : ItemId) : Op
  | remove (id : ItemId) : Op

/-- Run a sequence of `addItem`/`removeItem` calls. -/
def runOps : List Op → TreeState → TreeState
  | [], st => st
  | Op.add id :: rest, st => runOps rest (addItem st id).2
  | Op.remove id :: rest, st => runOps rest (removeItem st id).2

/-- Sequence well-formedness per the spec's item lifecycle (§3): `addItem` is
only called on an item that is currently detached (a created or previously
removed item); `removeItem` may be called at any time. -/
def wfRun : List Op → TreeState → Bool
  | [], _ => true
  | Op.add id :: rest, st => !(st.store id).attached && wfRun rest (addItem st id).2
  | Op.remove id :: rest, st => wfRun rest (removeItem st id).2

/-- The bookkeeping invariant: both lists are duplicate-free and each lists
exactly the items whose ATTACHED flag is set. -/
def ListsMatchFlags (st : TreeState) : Prop :=
  st.items.Nodup ∧ st.orderedItems.Nodup ∧
    (∀ id, id ∈ st.items ↔ (st.store id).attached = true) ∧
    (∀ id, id ∈ st.orderedItems ↔ (st.store id).attached = true)

/-- The state produced by the success path of `updateItem`. -/
def updateItemOk (st : TreeState) (id : ItemId) : TreeState :=
  let stA := (addItem (removeItem st id).2 id).2
  if (stA.store id).queued then stA
  else
    { stA with
      updateQueue := stA.updateQueue ++ [id],
      store := setStore stA.store id { stA.store id with queued := true } }

/-- Concrete attached-item tree for the C7 witness. -/
def attachedTree : TreeState := (addItem baseTree 0).2

/-- Queue effect of one `updateItem` call: enqueue unless already present. -/
def enqueue (q : List ItemId) (id : ItemId) : List ItemId :=
  if id ∈ q then q else q ++ [id]

/-- Queue effect of a sequence of `updateItem` calls. -/
def enqueueAll : List ItemId → List ItemId → List ItemId
  | [], q => q
  | id :: rest, q => enqueueAll rest (enqueue q id)

/-- Run a sequence of `updateItem` calls, propagating a thrown error. -/
def runUpdateItems : List ItemId → TreeState → Except String TreeState
  | [], st => Except.ok st
  | id :: rest, st =>
      match updateItem st id with
      | Except.ok st' => runUpdateItems rest st'
      | Except.error e => Except.error e

/-- The first occurrence of each id of a call list, in order of first
occurrence. -/
def firstOccur : List ItemId → List ItemId
  | [] => []
  | x :: xs => x :: firstOccur (xs.filter (fun y => !(y == x)))
termination_by l => l.length
decreasing_by simpa using Nat.lt_succ_of_le (List.length_filter_le _ _)

/-! ### Theorems -/

theorem setStore_same (s : Store) (id : ItemId) (d : ItemData) : setStore s id d id = d := by
  simp [setStore]

theorem setStore_other (s : Store) (id j : ItemId) (d : ItemData) (h : j ≠ id) :
    setStore s id d j = s j := by
  simp [setStore, h]

/-- After a `removeItem`, the item is never ATTACHED. -/
theorem removeItem_not_attached (st : TreeState) (id : ItemId) :
    (((removeItem st id).2).store id).attached = false := by
  by_cases h : (st.store id).attached
  · simp [removeItem, h, rootRemoveItem, setStore]
  · simp [removeItem, h]

/-- `removeItem` on a detached item changes nothing and reports success. -/
theorem removeItem_detached (st : TreeState) (id : ItemId)
    (h : (st.store id).attached = false) : removeItem st id = (true, st) := by
  simp [removeItem, h]

/-- C5: the claim as stated is false: the second of two consecutive
`removeItem(x)` calls returns `true` (the source's no-op success), not false:
on a tree holding item 0, removing it twice yields `true` the second time. -/
theorem removeItem_second_call_returns_true :
    (removeItem (removeItem (addItem baseTree 0).2 0).2 0).1 = true := by decide

/-- C5 (amended): two consecutive `removeItem(x)` calls both return without
error; the second call, made when `x` is no longer ATTACHED, is a no-op that
returns `true` (no-op success) and leaves `orderedItems` and every other part
of the tree state exactly unchanged. -/
theorem removeItem_idempotent_noop (st : TreeState) (id : ItemId) :
    removeItem (removeItem st id).2 id = (true, (removeItem st id).2) :=
  removeItem_detached _ _ (removeItem_not_attached st id)

/-- C9: when the root insertion fails (item bounds not inside the root
extents), `addItem` returns `false` and the entire tree state — including the
item's own stored fields — is exactly unchanged. -/
theorem addItem_failure_leaves_state_unchanged (st : TreeState) (id : ItemId)
    (h : boundsInsideRoot st (st.store id).insertionBounds = false) :
    addItem st id = (false, st) := by
  simp [addItem, rootAddItem, h]

/-- C9 witness: the failure hypothesis holds concretely and the theorem
applies. -/
theorem addItem_failure_witness :
    boundsInsideRoot tinyTree (tinyTree.store 0).insertionBounds = false ∧
      addItem tinyTree 0 = (false, tinyTree) :=
  ⟨by decide, addItem_failure_leaves_state_unchanged tinyTree 0 (by decide)⟩

/-- C10: when no SELECTED item remains at or beyond the cursor position,
`getNextSelected` returns null, does not decrement `selectedCount`, does not
change `selectedIndex`, and clears no SELECTED flag (the store is untouched);
in particular `selectedCount` can remain positive after exhaustion. -/
theorem getNextSelected_exhausted (st : TreeState)
    (h : ∀ id ∈ st.cursor, (st.store id).selected = false) :
    (getNextSelected st).1 = none ∧
      ((getNextSelected st).2).selectedCount = st.selectedCount ∧
      ((getNextSelected st).2).selectedIndex = st.selectedIndex ∧
      ((getNextSelected st).2).store = st.store := by
  have hdrop : st.cursor.dropWhile (fun id => !(st.store id).selected) = [] := by
    rw [List.dropWhile_eq_nil_iff]
    intro x hx
    simp [h x hx]
  simp [getNextSelected, hdrop]

/-- C10 witness: at `staleSelectionTree` the hypothesis holds and the
exhausted `getNextSelected` leaves the positive `selectedCount` at 1. -/
theorem getNextSelected_exhausted_witness :
    staleSelectionTree.selectedCount = 1 ∧
      (getNextSelected staleSelectionTree).1 = none ∧
      ((getNextSelected staleSelectionTree).2).selectedCount = 1 :=
  ⟨rfl,
    (getNextSelected_exhausted staleSelectionTree (by decide)).1,
    by rw [(getNextSelected_exhausted staleSelectionTree (by decide)).2.1]; rfl⟩

/-- Sorted insertion only adds the new item: the result is a permutation of
the input with the item on top. -/
theorem insertOrdered_perm (ib : ItemId → ItemId → Bool) (x : ItemId) :
    ∀ l : List ItemId, List.Perm (insertOrdered ib x l) (x :: l) := by
  intro l
  induction l with
  | nil => simp [insertOrdered]
  | cons y rest ih =>
      by_cases h : ib x y
      · simp [insertOrdered, h]
      · simp only [insertOrdered, h, if_false]
        exact (ih.cons y).trans (List.Perm.swap x y rest)

/-- Adjacent-pair soundness of sorted insertion: no adjacent pair is strictly
inverted.  The relation `ib a b = true ∨ ib b a = false` says: either `a` is
before `b`, or at least `b` is not before `a` (ties allowed). -/
theorem insertOrdered_chain (ib : ItemId → ItemId → Bool) (x : ItemId) :
    ∀ l : List ItemId,
      List.Chain' (fun a b => ib a b = true ∨ ib b a = false) l →
      List.Chain' (fun a b => ib a b = true ∨ ib b a = false) (insertOrdered ib x l) := by
  intro l
  induction l with
  | nil => intro _; simp [insertOrdered]
  | cons y rest ih =>
      intro hch
      by_cases h : ib x y
      · simp only [insertOrdered, h, if_true]
        exact List.Chain'.cons (Or.inl h) hch
      · simp only [insertOrdered]
        rw [if_neg h, List.chain'_cons']
        refine ⟨?_, ih hch.tail⟩
        intro b hb
        have hhead : (insertOrdered ib x rest).head? = some x ∨
            (insertOrdered ib x rest).head? = rest.head? := by
          cases rest with
          | nil => simp [insertOrdered]
          | cons z rest' =>
              by_cases hz : ib x z
              · simp [insertOrdered, hz]
              · simp [insertOrdered, hz]
        rcases hhead with hx | hrest
        · rw [hx] at hb
          simp only [Option.mem_def, Option.some.injEq] at hb
          subst hb
          exact Or.inr (Bool.eq_false_iff.mpr h)
        · rw [hrest] at hb
          exact (List.chain'_cons'.mp hch).1 b hb

/-- The rebuild loop of `reorderItems` permutes its input onto the
accumulator. -/
theorem reorderFold_perm (ib : ItemId → ItemId → Bool) :
    ∀ (l acc : List ItemId),
      List.Perm (l.foldl (fun a i => insertOrdered ib i a) acc) (l ++ acc) := by
  intro l
  induction l with
  | nil => intro acc; simp
  | cons x rest ih =>
      intro acc
      have h1 := ih (insertOrdered ib x acc)
      have h2 : List.Perm (rest ++ insertOrdered ib x acc) (rest ++ (x :: acc)) :=
        List.Perm.append_left rest (insertOrdered_perm ib x acc)
      have h3 : List.Perm (rest ++ (x :: acc)) (x :: (rest ++ acc)) := List.perm_middle
      simpa using (h1.trans h2).trans h3

/-- The rebuild loop of `reorderItems` keeps the accumulator free of strictly
inverted adjacent pairs. -/
theorem reorderFold_chain (ib : ItemId → ItemId → Bool) :
    ∀ (l acc : List ItemId),
      List.Chain' (fun a b => ib a b = true ∨ ib b a = false) acc →
      List.Chain' (fun a b => ib a b = true ∨ ib b a = false)
        (l.foldl (fun a i => insertOrdered ib i a) acc) := by
  intro l
  induction l with
  | nil => intro acc h; simpa using h
  | cons x rest ih =>
      intro acc h
      exact ih (insertOrdered ib x acc) (insertOrdered_chain ib x acc h)

/-- C3: the claim as stated is false: after `setComparator` and
`reorderItems` on two items with identical bounds and z-index under
`COMPARATOR_DEFAULT_YX`, the walk yields the adjacent pair (0, 1) with
`isBefore 0 1 = false` (ties never satisfy the strict comparator). -/
theorem reorderItems_adjacent_isBefore_fails :
    (reorderItems (setComparator duplicatePairTree COMPARATOR_DEFAULT_YX)).orderedItems
        = [0, 1] ∧
      isBefore (reorderItems (setComparator duplicatePairTree COMPARATOR_DEFAULT_YX)) 0 1
        = false := by
  constructor
  · rfl
  · rfl

/-- C3 (amended): for every tree state and every comparator `c`, after
`setComparator(c)` followed by `reorderItems()`, `orderedItems` contains
exactly the same items (a permutation of the previous list), and walking it
head-to-tail no adjacent pair `a, b` is strictly inverted: for each adjacent
pair, `isBefore(a,b)` holds or `isBefore(b,a)` fails (equality of keys —
a tie — is the only way `isBefore(a,b)` can fail). -/
theorem reorderItems_perm_and_no_inversion (st : TreeState) (c : Comparator) :
    List.Perm (reorderItems (setComparator st c)).orderedItems st.orderedItems ∧
      List.Chain'
        (fun a b => isBefore (reorderItems (setComparator st c)) a b = true ∨
          isBefore (reorderItems (setComparator st c)) b a = false)
        (reorderItems (setComparator st c)).orderedItems := by
  constructor
  · simpa using reorderFold_perm (isBefore (setComparator st c)) st.orderedItems []
  · have h := reorderFold_chain (isBefore (setComparator st c)) st.orderedItems []
      (by simp)
    exact h

/-- C4: the claim as stated is false: `COMPARATOR_MANHATTAN` is a supplied
comparator whose Y comparison is not XOR'd with `yd` (it reads neither `xd`
nor `yd`), so for two items that tie on Z and X and differ on Y, toggling
`yd` and calling `reorderItems()` leaves their relative Y-ordering exactly as
it was instead of reversing it. -/
theorem manhattan_yd_toggle_not_reversing :
    (manhattanTree.store 0).zindex = (manhattanTree.store 1).zindex ∧
      (manhattanTree.store 0).insertionBounds.x1 = (manhattanTree.store 1).insertionBounds.x1 ∧
      (manhattanTree.store 0).insertionBounds.y1 ≠ (manhattanTree.store 1).insertionBounds.y1 ∧
      manhattanTree.yd = false ∧
      isBefore manhattanTree 0 1 = true ∧
      isBefore (reorderItems (setYd manhattanTree true).2) 0 1 = true ∧
      (reorderItems (setYd manhattanTree true).2).orderedItems = [0, 1] := by
  refine ⟨by decide, by decide, by decide, by decide, by decide, by decide, ?_⟩
  rfl

/-- C4 (amended): the claimed XOR law holds for the default comparator, not
for all supplied ones: for `COMPARATOR_DEFAULT_YX` with `zd` clear, toggling
`yd` exactly inverts the comparison of any two items that tie on Z and have
distinct `y1` (the Y comparison is XOR'd with `yd`); `COMPARATOR_MANHATTAN`
ignores `xd` and `yd` entirely; and neither `setYd` nor `reorderItems`
changes any item's stored bounds or Z values. -/
theorem yd_xor_flips_default_yx (xd yd zd : Bool) (a b : Rect) (p q : ItemData)
    (hz : p.zindex = q.zindex) (hzd : zd = false) (hy : a.y1 ≠ b.y1) :
    COMPARATOR_DEFAULT_YX xd (!yd) zd a b p q = !(COMPARATOR_DEFAULT_YX xd yd zd a b p q) ∧
      (∀ (u₁ v₁ u₂ v₂ w : Bool) (a' b' : Rect) (p' q' : ItemData),
        COMPARATOR_MANHATTAN u₁ v₁ w a' b' p' q' = COMPARATOR_MANHATTAN u₂ v₂ w a' b' p' q') ∧
      (∀ st : TreeState, (reorderItems st).store = st.store ∧
        ∀ v, ((setYd st v).2).store = st.store) := by
  refine ⟨?_, fun _ _ _ _ _ _ _ _ _ => rfl, fun st => ⟨rfl, fun v => ?_⟩⟩
  · subst hzd
    have hlt : decide (p.zindex < q.zindex) = false := by simp [hz]
    have hbz : (p.zindex == q.zindex) = true := by simp [hz]
    have hby : (a.y1 == b.y1) = false := by simp [hy]
    cases hd : decide (a.y1 < b.y1) <;> cases yd <;>
      simp [COMPARATOR_DEFAULT_YX, hlt, hbz, hby, hd]
  · by_cases h : st.yd == v <;> simp [setYd, h]

/-- C4 witness: the amended law at concrete values (z tie, distinct `y1`). -/
theorem yd_xor_flips_default_yx_witness :
    (freshItem boxLowY 0).zindex = (freshItem boxHighY 0).zindex ∧
      boxLowY.y1 ≠ boxHighY.y1 ∧
      COMPARATOR_DEFAULT_YX false (!false) false boxLowY boxHighY
          (freshItem boxLowY 0) (freshItem boxHighY 0)
        = !(COMPARATOR_DEFAULT_YX false false false boxLowY boxHighY
            (freshItem boxLowY 0) (freshItem boxHighY 0)) :=
  ⟨rfl, by decide,
    (yd_xor_flips_default_yx false false false boxLowY boxHighY
      (freshItem boxLowY 0) (freshItem boxHighY 0) rfl rfl (by decide)).1⟩

/-- Skipping a non-SELECTED item at the cursor head is invisible to
`getNextSelected`. -/
theorem getNextSelected_skip (st : TreeState) (hd : ItemId) (tl : List ItemId)
    (hc : st.cursor = hd :: tl) (hsel : (st.store hd).selected = false) :
    getNextSelected st = getNextSelected { st with cursor := tl } := by
  simp [getNextSelected, hc, List.dropWhile_cons, hsel]

/-- With enough fuel, repeatedly calling `getNextSelected` returns exactly
the SELECTED items of the cursor, in cursor order. -/
theorem drainAux_output :
    ∀ c : List ItemId, c.Nodup → ∀ (st : TreeState) (fuel : Nat), st.cursor = c →
      c.length ≤ fuel →
      (drainAux fuel st).1 = c.filter (fun id => (st.store id).selected) := by
  intro c
  induction c with
  | nil =>
      intro _ st fuel hc _
      cases fuel with
      | zero => simp [drainAux]
      | succ n => simp [drainAux, getNextSelected, hc]
  | cons hd tl ih =>
      intro hnd st fuel hc hlen
      cases fuel with
      | zero => simp at hlen
      | succ n =>
          by_cases hsel : (st.store hd).selected = true
          · have hdrop : st.cursor.dropWhile (fun id => !(st.store id).selected)
                = hd :: tl := by
              simp [hc, List.dropWhile_cons, hsel]
            have hstep : getNextSelected st =
                (some hd,
                  { st with
                    store := setStore st.store hd
                      { st.store hd with selected := false, selectedIndex := st.selectedIndex },
                    cursor := tl,
                    selectedIndex := st.selectedIndex + 1,
                    selectedCount := st.selectedCount - 1 }) := by
              simp [getNextSelected, hdrop]
            have hrec := ih hnd.of_cons
              { st with
                store := setStore st.store hd
                  { st.store hd with selected := false, selectedIndex := st.selectedIndex },
                cursor := tl,
                selectedIndex := st.selectedIndex + 1,
                selectedCount := st.selectedCount - 1 }
              n rfl (by simpa using Nat.le_of_succ_le_succ hlen)
            have hfilter : tl.filter
                (fun id => (setStore st.store hd
                  { st.store hd with selected := false, selectedIndex := st.selectedIndex }
                    id).selected)
                = tl.filter (fun id => (st.store id).selected) := by
              apply List.filter_congr
              intro id hid
              have hne : id ≠ hd := fun h => (List.nodup_cons.mp hnd).1 (h ▸ hid)
              rw [setStore_other _ _ _ _ hne]
            simp [drainAux, hstep, hrec, hfilter, List.filter_cons, hsel]
          · have hsel' : (st.store hd).selected = false := Bool.eq_false_iff.mpr hsel
            have hstep := getNextSelected_skip st hd tl hc hsel'
            have hrec := ih hnd.of_cons { st with cursor := tl } (n + 1) rfl
              (by simp at hlen; omega)
            have heq : (drainAux (n + 1) st).1
                = (drainAux (n + 1) ({ st with cursor := tl } : TreeState)).1 := by
              simp only [drainAux, hstep]
            rw [heq, hrec]
            simp [List.filter_cons, hsel']

/-- C1: over a well-formed tree state with no live selection (`orderedItems`
duplicate-free, carrying the same items as the linear item list, all of them
ATTACHED, none still SELECTED, sorted consistently with `isBefore`, forward
traversal), `selectItems(R, filter)` followed by draining `getNextSelected`
until null yields exactly the attached items whose bounds intersect `R` and
pass the filter, each exactly once, in an order consistent with `isBefore`
under the current comparator and axis flags (no drained pair is inverted). -/
theorem selectItems_drain_exact (st : TreeState) (r : Rect)
    (filter : Option (ItemData → Bool))
    (hrev : st.isReverse = false)
    (hnd : st.orderedItems.Nodup)
    (hmem : ∀ id, id ∈ st.orderedItems ↔ id ∈ st.items)
    (hatt : ∀ id ∈ st.items, (st.store id).attached = true)
    (hclean : ∀ id ∈ st.orderedItems, (st.store id).selected = false)
    (hsort : List.Pairwise (fun a b => isBefore st b a = false) st.orderedItems) :
    (∀ id, id ∈ (drainAll (selectItems st (some r) filter none).2).1 ↔
        ((st.store id).attached = true ∧ id ∈ st.items ∧
          selectMatch (some r) filter (st.store id) = true)) ∧
      (drainAll (selectItems st (some r) filter none).2).1.Nodup ∧
      List.Pairwise (fun a b => isBefore st b a = false)
        (drainAll (selectItems st (some r) filter none).2).1 := by
  have hcur : (selectItems st (some r) filter none).2.cursor = st.orderedItems := by
    simp [selectItems, hrev]
  have hout : (drainAll (selectItems st (some r) filter none).2).1
      = st.orderedItems.filter
          (fun id => ((selectItems st (some r) filter none).2.store id).selected) := by
    unfold drainAll
    rw [hcur]
    exact drainAux_output st.orderedItems hnd _ _ hcur (Nat.le_succ _)
  have hpred : st.orderedItems.filter
      (fun id => ((selectItems st (some r) filter none).2.store id).selected)
      = st.orderedItems.filter
          (fun id => decide (id ∈ st.items) && selectMatch (some r) filter (st.store id)) := by
    apply List.filter_congr
    intro id hid
    by_cases h1 : id ∈ st.items
    · by_cases h2 : selectMatch (some r) filter (st.store id) = true
      · simp [selectItems, h1, h2]
      · simp [selectItems, h1, h2, hclean id hid]
    · simp [selectItems, h1, hclean id hid]
  rw [hout, hpred]
  refine ⟨?_, ?_, ?_⟩
  · intro id
    rw [List.mem_filter]
    simp only [Bool.and_eq_true, decide_eq_true_eq]
    constructor
    · rintro ⟨_, hi, hm⟩
      exact ⟨hatt id hi, hi, hm⟩
    · rintro ⟨_, hi, hm⟩
      exact ⟨(hmem id).mpr hi, hi, hm⟩
  · exact (List.filter_sublist _).nodup hnd
  · exact List.Pairwise.sublist (List.filter_sublist _) hsort

/-- C1 witness: the hypotheses hold at `sortedPairTree` and the drained
selection contains the matching item 0 and is duplicate-free. -/
theorem selectItems_drain_exact_witness :
    sortedPairTree.isReverse = false ∧
      0 ∈ (drainAll (selectItems sortedPairTree (some queryBox) none none).2).1 ∧
      (drainAll (selectItems sortedPairTree (some queryBox) none none).2).1.Nodup :=
  ⟨rfl,
    ((selectItems_drain_exact sortedPairTree queryBox none rfl (by decide)
        (fun _ => Iff.rfl)
        (fun id _ => by by_cases h : id = 0 <;> simp [sortedPairTree, sortedPairStore, freshItem, h])
        (fun id _ => by by_cases h : id = 0 <;> simp [sortedPairTree, sortedPairStore, freshItem, h])
        (by decide)).1 0).mpr ⟨rfl, by decide, by decide⟩,
    (selectItems_drain_exact sortedPairTree queryBox none rfl (by decide)
        (fun _ => Iff.rfl)
        (fun id _ => by by_cases h : id = 0 <;> simp [sortedPairTree, sortedPairStore, freshItem, h])
        (fun id _ => by by_cases h : id = 0 <;> simp [sortedPairTree, sortedPairStore, freshItem, h])
        (by decide)).2.1⟩

/-- `addItem` on a detached item preserves the bookkeeping invariant. -/
theorem addItem_listsMatchFlags (st : TreeState) (id : ItemId)
    (h : ListsMatchFlags st) (hdet : (st.store id).attached = false) :
    ListsMatchFlags (addItem st id).2 := by
  obtain ⟨hnd1, hnd2, hm1, hm2⟩ := h
  have hni : id ∉ st.items := fun hc => by
    have h1 := (hm1 id).mp hc
    rw [hdet] at h1
    exact Bool.false_ne_true h1
  have hno : id ∉ st.orderedItems := fun hc => by
    have h1 := (hm2 id).mp hc
    rw [hdet] at h1
    exact Bool.false_ne_true h1
  by_cases hb : boundsInsideRoot st (st.store id).insertionBounds = true
  · simp only [addItem, rootAddItem, hb, if_true, addItemOrdered]
    refine ⟨?_, ?_, ?_, ?_⟩
    · simpa [List.nodup_middle] using List.nodup_cons.mpr ⟨hni, hnd1⟩
    · exact (insertOrdered_perm _ id _).symm.nodup (List.nodup_cons.mpr ⟨hno, hnd2⟩)
    · intro j
      by_cases hj : j = id
      · subst hj
        simp [setStore_same]
      · simp only [List.mem_append, List.mem_singleton, hj, or_false,
          setStore_other _ _ _ _ hj]
        exact hm1 j
    · intro j
      rw [(insertOrdered_perm _ id _).mem_iff, List.mem_cons]
      by_cases hj : j = id
      · subst hj
        simp [setStore_same]
      · simp only [hj, false_or, setStore_other _ _ _ _ hj]
        exact hm2 j
  · have hb' : boundsInsideRoot st (st.store id).insertionBounds = false :=
      Bool.eq_false_iff.mpr hb
    simp only [addItem, rootAddItem, hb', Bool.false_eq_true, if_false]
    exact ⟨hnd1, hnd2, hm1, hm2⟩

/-- `removeItem` preserves the bookkeeping invariant. -/
theorem removeItem_listsMatchFlags (st : TreeState) (id : ItemId)
    (h : ListsMatchFlags st) : ListsMatchFlags (removeItem st id).2 := by
  obtain ⟨hnd1, hnd2, hm1, hm2⟩ := h
  by_cases ha : (st.store id).attached = true
  · simp only [removeItem, ha, Bool.not_true, Bool.false_eq_true, if_false,
      rootRemoveItem, if_true]
    refine ⟨hnd1.erase id, hnd2.erase id, ?_, ?_⟩
    · intro j
      rw [hnd1.mem_erase_iff]
      by_cases hj : j = id
      · subst hj
        simp [setStore_same]
      · simp only [hj, true_and, setStore_other _ _ _ _ hj, ne_eq,
          not_false_iff]
        exact hm1 j
    · intro j
      rw [hnd2.mem_erase_iff]
      by_cases hj : j = id
      · subst hj
        simp [setStore_same]
      · simp only [hj, true_and, setStore_other _ _ _ _ hj, ne_eq,
          not_false_iff]
        exact hm2 j
  · have ha' : (st.store id).attached = false := Bool.eq_false_iff.mpr ha
    rw [removeItem_detached st id ha']
    exact ⟨hnd1, hnd2, hm1, hm2⟩

/-- A well-formed call sequence preserves the bookkeeping invariant. -/
theorem runOps_listsMatchFlags :
    ∀ (ops : List Op) (st : TreeState), ListsMatchFlags st → wfRun ops st = true →
      ListsMatchFlags (runOps ops st) := by
  intro ops
  induction ops with
  | nil => intro st h _; exact h
  | cons op rest ih =>
      intro st h hwf
      cases op with
      | add id =>
          rw [wfRun, Bool.and_eq_true] at hwf
          have hdet : (st.store id).attached = false := by
            have h1 := hwf.1
            rwa [Bool.not_eq_true'] at h1
          exact ih _ (addItem_listsMatchFlags st id h hdet) hwf.2
      | remove id =>
          rw [wfRun] at hwf
          exact ih _ (removeItem_listsMatchFlags st id h) hwf

/-- C2: for every well-formed finite sequence of `addItem`/`removeItem` calls
(per the spec's lifecycle, `addItem` is called on detached items) starting
from an empty tree over fresh items, the linear item list and the ordered
draw list have equal size, and every item whose ATTACHED flag is set appears
exactly once in each. -/
theorem add_remove_lists_agree (ops : List Op) (x1 y1 x2 y2 cap : Int) (s : Store)
    (hfresh : ∀ id, (s id).attached = false)
    (hwf : wfRun ops (mkQuadTree x1 y1 x2 y2 cap s) = true) :
    (runOps ops (mkQuadTree x1 y1 x2 y2 cap s)).items.length
        = (runOps ops (mkQuadTree x1 y1 x2 y2 cap s)).orderedItems.length ∧
      ∀ id, ((runOps ops (mkQuadTree x1 y1 x2 y2 cap s)).store id).attached = true →
        (runOps ops (mkQuadTree x1 y1 x2 y2 cap s)).items.count id = 1 ∧
          (runOps ops (mkQuadTree x1 y1 x2 y2 cap s)).orderedItems.count id = 1 := by
  have hinit : ListsMatchFlags (mkQuadTree x1 y1 x2 y2 cap s) := by
    refine ⟨List.nodup_nil, List.nodup_nil, ?_, ?_⟩ <;>
      · intro id
        simp [mkQuadTree, hfresh id]
  obtain ⟨hnd1, hnd2, hm1, hm2⟩ := runOps_listsMatchFlags ops _ hinit hwf
  constructor
  · have hperm : List.Perm (runOps ops (mkQuadTree x1 y1 x2 y2 cap s)).items
        (runOps ops (mkQuadTree x1 y1 x2 y2 cap s)).orderedItems :=
      (List.perm_ext_iff_of_nodup hnd1 hnd2).mpr
        (fun id => (hm1 id).trans (hm2 id).symm)
    exact hperm.length_eq
  · intro id ha
    exact ⟨List.count_eq_one_of_mem hnd1 ((hm1 id).mpr ha),
      List.count_eq_one_of_mem hnd2 ((hm2 id).mpr ha)⟩

/-- C2 witness: two adds and a remove on the concrete base tree. -/
theorem add_remove_lists_agree_witness :
    wfRun [Op.add 0, Op.add 1, Op.remove 0] (mkQuadTree (-100) (-100) 100 100 4 uniformStore)
        = true ∧
      (runOps [Op.add 0, Op.add 1, Op.remove 0]
          (mkQuadTree (-100) (-100) 100 100 4 uniformStore)).items.length
        = (runOps [Op.add 0, Op.add 1, Op.remove 0]
            (mkQuadTree (-100) (-100) 100 100 4 uniformStore)).orderedItems.length :=
  ⟨by decide,
    (add_remove_lists_agree [Op.add 0, Op.add 1, Op.remove 0] (-100) (-100) 100 100 4
      uniformStore (fun _ => rfl) (by decide)).1⟩

/-- `addItem` on contained bounds succeeds, attaches the item and places it
in the ordered list. -/
theorem addItem_success (st : TreeState) (id : ItemId)
    (hb : boundsInsideRoot st (st.store id).insertionBounds = true) :
    (addItem st id).1 = true ∧ ((addItem st id).2.store id).attached = true ∧
      id ∈ (addItem st id).2.orderedItems := by
  refine ⟨by simp [addItem, rootAddItem, hb], by simp [addItem, rootAddItem, hb,
    addItemOrdered, setStore_same], ?_⟩
  simp only [addItem, rootAddItem, hb, if_true, addItemOrdered]
  rw [(insertOrdered_perm _ id _).mem_iff]
  exact List.mem_cons_self id _

/-- `addItem` on non-contained bounds is a report-false no-op. -/
theorem addItem_fail (st : TreeState) (id : ItemId)
    (hb : boundsInsideRoot st (st.store id).insertionBounds = false) :
    addItem st id = (false, st) := by
  simp [addItem, rootAddItem, hb]

/-- `boundsInsideRoot` only depends on the four root extents and the tested
rectangle. -/
theorem boundsInsideRoot_congr (st st' : TreeState) (b b' : Rect)
    (h1 : st'.rootX1 = st.rootX1) (h2 : st'.rootX2 = st.rootX2)
    (h3 : st'.rootY1 = st.rootY1) (h4 : st'.rootY2 = st.rootY2) (hb : b' = b) :
    boundsInsideRoot st' b' = boundsInsideRoot st b := by
  rw [boundsInsideRoot, boundsInsideRoot, h1, h2, h3, h4, hb]

/-- `removeItem` changes neither the root extents nor any item's stored
bounds, so containment in the root is preserved. -/
theorem boundsInsideRoot_removeItem (st : TreeState) (id j : ItemId) :
    boundsInsideRoot (removeItem st id).2 (((removeItem st id).2.store j).insertionBounds)
      = boundsInsideRoot st ((st.store j).insertionBounds) := by
  by_cases ha : (st.store id).attached = true
  · refine boundsInsideRoot_congr st _ _ _ ?_ ?_ ?_ ?_ ?_ <;>
      [skip; skip; skip; skip;
        by_cases hj : j = id]
    · simp [removeItem, ha, rootRemoveItem]
    · simp [removeItem, ha, rootRemoveItem]
    · simp [removeItem, ha, rootRemoveItem]
    · simp [removeItem, ha, rootRemoveItem]
    · subst hj
      simp [removeItem, ha, rootRemoveItem, setStore_same]
    · simp [removeItem, ha, rootRemoveItem, setStore_other _ _ _ _ hj]
  · rw [removeItem_detached st id (Bool.eq_false_iff.mpr ha)]

/-- `addItem` changes neither the root extents nor any item's stored bounds. -/
theorem boundsInsideRoot_addItem (st : TreeState) (id j : ItemId) :
    boundsInsideRoot (addItem st id).2 (((addItem st id).2.store j).insertionBounds)
      = boundsInsideRoot st ((st.store j).insertionBounds) := by
  by_cases hb : boundsInsideRoot st (st.store id).insertionBounds = true
  · refine boundsInsideRoot_congr st _ _ _ ?_ ?_ ?_ ?_ ?_ <;>
      [skip; skip; skip; skip;
        by_cases hj : j = id]
    · simp [addItem, rootAddItem, hb, addItemOrdered]
    · simp [addItem, rootAddItem, hb, addItemOrdered]
    · simp [addItem, rootAddItem, hb, addItemOrdered]
    · simp [addItem, rootAddItem, hb, addItemOrdered]
    · subst hj
      simp [addItem, rootAddItem, hb, addItemOrdered, setStore_same]
    · simp [addItem, rootAddItem, hb, addItemOrdered, setStore_other _ _ _ _ hj]
  · rw [addItem_fail st id (Bool.eq_false_iff.mpr hb)]

/-- `removeItem` does not touch the update queue. -/
theorem removeItem_updateQueue (st : TreeState) (id : ItemId) :
    (removeItem st id).2.updateQueue = st.updateQueue := by
  by_cases ha : (st.store id).attached = true
  · simp [removeItem, ha, rootRemoveItem]
  · rw [removeItem_detached st id (Bool.eq_false_iff.mpr ha)]

/-- `addItem` does not touch the update queue. -/
theorem addItem_updateQueue (st : TreeState) (id : ItemId) :
    (addItem st id).2.updateQueue = st.updateQueue := by
  by_cases hb : boundsInsideRoot st (st.store id).insertionBounds = true
  · simp [addItem, rootAddItem, hb, addItemOrdered]
  · rw [addItem_fail st id (Bool.eq_false_iff.mpr hb)]

/-- `removeItem` does not touch any QUEUED flag. -/
theorem removeItem_queued (st : TreeState) (id j : ItemId) :
    ((removeItem st id).2.store j).queued = (st.store j).queued := by
  by_cases ha : (st.store id).attached = true
  · by_cases hj : j = id
    · subst hj
      simp [removeItem, ha, rootRemoveItem, setStore_same]
    · simp [removeItem, ha, rootRemoveItem, setStore_other _ _ _ _ hj]
  · rw [removeItem_detached st id (Bool.eq_false_iff.mpr ha)]

/-- `addItem` does not touch any QUEUED flag. -/
theorem addItem_queued (st : TreeState) (id j : ItemId) :
    ((addItem st id).2.store j).queued = (st.store j).queued := by
  by_cases hb : boundsInsideRoot st (st.store id).insertionBounds = true
  · by_cases hj : j = id
    · subst hj
      simp [addItem, rootAddItem, hb, addItemOrdered, setStore_same]
    · simp [addItem, rootAddItem, hb, addItemOrdered, setStore_other _ _ _ _ hj]
  · rw [addItem_fail st id (Bool.eq_false_iff.mpr hb)]

/-- When the (unchanged) bounds still fit the root, `updateItem` succeeds
and produces `updateItemOk`. -/
theorem updateItem_eq_ok (st : TreeState) (id : ItemId)
    (hb : boundsInsideRoot st (st.store id).insertionBounds = true) :
    updateItem st id = Except.ok (updateItemOk st id) := by
  have hb' : boundsInsideRoot (removeItem st id).2
      (((removeItem st id).2.store id).insertionBounds) = true := by
    rw [boundsInsideRoot_removeItem]
    exact hb
  have h1 : (addItem (removeItem st id).2 id).1 = true := (addItem_success _ _ hb').1
  by_cases hq : ((addItem (removeItem st id).2 id).2.store id).queued = true
  · simp only [updateItem, updateItemOk, h1, hq, if_true]
  · have hq' := Bool.eq_false_iff.mpr hq
    simp only [updateItem, updateItemOk, h1, hq', if_true, Bool.false_eq_true, if_false]

/-- When the bounds no longer fit the root, `updateItem` throws. -/
theorem updateItem_eq_error (st : TreeState) (id : ItemId)
    (hb : boundsInsideRoot st (st.store id).insertionBounds = false) :
    updateItem st id = Except.error "Unable to re-attach item to quadtree." := by
  have hb' : boundsInsideRoot (removeItem st id).2
      (((removeItem st id).2.store id).insertionBounds) = false := by
    rw [boundsInsideRoot_removeItem]
    exact hb
  have h1 := addItem_fail (removeItem st id).2 id hb'
  simp only [updateItem, h1, Bool.false_eq_true, if_false]

/-- C7: for every attached item, `updateItem(item)` (which removes the item
and re-adds it) raises the fatal error if and only if the re-insertion fails
(the item's bounds no longer fit the root extents); when it does not throw,
the item ends up attached and present in the ordered list — it is never
silently dropped. -/
theorem updateItem_fatal_iff (st : TreeState) (id : ItemId)
    (hatt : (st.store id).attached = true) :
    ((∃ e, updateItem st id = Except.error e) ↔
        boundsInsideRoot st (st.store id).insertionBounds = false) ∧
      ∀ st', updateItem st id = Except.ok st' →
        (st'.store id).attached = true ∧ id ∈ st'.orderedItems := by
  by_cases hb : boundsInsideRoot st (st.store id).insertionBounds = true
  · have hok := updateItem_eq_ok st id hb
    have hb' : boundsInsideRoot (removeItem st id).2
        (((removeItem st id).2.store id).insertionBounds) = true := by
      rw [boundsInsideRoot_removeItem]
      exact hb
    have hs := addItem_success (removeItem st id).2 id hb'
    constructor
    · constructor
      · rintro ⟨e, he⟩
        rw [hok] at he
        exact absurd he (by simp)
      · intro hf
        rw [hb] at hf
        exact absurd hf (by simp)
    · intro st' hok'
      rw [hok] at hok'
      injection hok' with h
      subst h
      unfold updateItemOk
      by_cases hq : ((addItem (removeItem st id).2 id).2.store id).queued = true
      · simp only [hq, if_true]
        exact ⟨hs.2.1, hs.2.2⟩
      · have hq' := Bool.eq_false_iff.mpr hq
        simp only [hq', Bool.false_eq_true, if_false]
        exact ⟨by simp [setStore_same, hs.2.1], hs.2.2⟩
  · have hb' := Bool.eq_false_iff.mpr hb
    have herr := updateItem_eq_error st id hb'
    constructor
    · exact ⟨fun _ => hb', fun _ => ⟨_, herr⟩⟩
    · intro st' hok'
      rw [herr] at hok'
      exact absurd hok' (by simp)

/-- C7 witness: item 0 is attached in `attachedTree`, its bounds still fit,
and `updateItem` there does not throw. -/
theorem updateItem_fatal_iff_witness :
    (attachedTree.store 0).attached = true ∧
      ((∃ e, updateItem attachedTree 0 = Except.error e) ↔
        boundsInsideRoot attachedTree (attachedTree.store 0).insertionBounds = false) :=
  ⟨by decide, (updateItem_fatal_iff attachedTree 0 (by decide)).1⟩

/-- C8: an item is in the pending-update queue at most once.  Over any state
where the QUEUED flags agree with (duplicate-free) queue membership and the
item's bounds still fit, `updateItem` succeeds; the first successful call
(item not QUEUED) appends the item and sets QUEUED, while any call on an
already-QUEUED item leaves the queue unchanged — and in all cases the item
occurs exactly once in the resulting queue, which stays duplicate-free. -/
theorem updateItem_queue_dedup (st : TreeState) (id : ItemId)
    (hcons : ∀ j, (st.store j).queued = true ↔ j ∈ st.updateQueue)
    (hnd : st.updateQueue.Nodup)
    (hb : boundsInsideRoot st (st.store id).insertionBounds = true) :
    ∃ st', updateItem st id = Except.ok st' ∧
      st'.updateQueue.count id = 1 ∧
      ((st.store id).queued = true → st'.updateQueue = st.updateQueue) ∧
      ((st.store id).queued = false →
        st'.updateQueue = st.updateQueue ++ [id] ∧ (st'.store id).queued = true) ∧
      st'.updateQueue.Nodup := by
  have hQA : ((addItem (removeItem st id).2 id).2).updateQueue = st.updateQueue := by
    rw [addItem_updateQueue, removeItem_updateQueue]
  have hqA : (((addItem (removeItem st id).2 id).2).store id).queued
      = (st.store id).queued := by
    rw [addItem_queued, removeItem_queued]
  by_cases hq : (st.store id).queued = true
  · have hok : updateItemOk st id = (addItem (removeItem st id).2 id).2 := by
      simp only [updateItemOk]
      rw [hqA.trans hq]
      simp
    refine ⟨updateItemOk st id, updateItem_eq_ok st id hb, ?_, ?_, ?_, ?_⟩
    · rw [hok, hQA]
      exact List.count_eq_one_of_mem hnd ((hcons id).mp hq)
    · intro _
      rw [hok, hQA]
    · intro hqf
      rw [hq] at hqf
      exact absurd hqf (by simp)
    · rw [hok, hQA]
      exact hnd
  · have hq' : (st.store id).queued = false := Bool.eq_false_iff.mpr hq
    have hni : id ∉ st.updateQueue := fun hm => by
      have h1 := (hcons id).mpr hm
      rw [hq'] at h1
      exact Bool.false_ne_true h1
    have hok : updateItemOk st id
        = { (addItem (removeItem st id).2 id).2 with
            updateQueue := ((addItem (removeItem st id).2 id).2).updateQueue ++ [id],
            store := setStore ((addItem (removeItem st id).2 id).2).store id
              { ((addItem (removeItem st id).2 id).2).store id with queued := true } } := by
      simp only [updateItemOk]
      rw [hqA.trans hq']
      simp
    refine ⟨updateItemOk st id, updateItem_eq_ok st id hb, ?_, ?_, ?_, ?_⟩
    · rw [hok]
      show (((addItem (removeItem st id).2 id).2).updateQueue ++ [id]).count id = 1
      rw [hQA, List.count_append]
      simp [List.count_eq_zero.mpr hni]
    · intro hqt
      rw [hqt] at hq'
      exact absurd hq' (by simp)
    · intro _
      constructor
      · rw [hok]
        show ((addItem (removeItem st id).2 id).2).updateQueue ++ [id]
            = st.updateQueue ++ [id]
        rw [hQA]
      · rw [hok]
        show (setStore ((addItem (removeItem st id).2 id).2).store id
          { ((addItem (removeItem st id).2 id).2).store id with queued := true } id).queued
            = true
        rw [setStore_same]
    · rw [hok]
      show (((addItem (removeItem st id).2 id).2).updateQueue ++ [id]).Nodup
      rw [hQA]
      simpa [List.nodup_middle] using List.nodup_cons.mpr ⟨hni, hnd⟩

/-- C8 witness: on the base tree (empty queue, no QUEUED flags, fitting
bounds) the theorem applies to item 0. -/
theorem updateItem_queue_dedup_witness :
    (baseTree.store 0).queued = false ∧
      ∃ st', updateItem baseTree 0 = Except.ok st' ∧ st'.updateQueue.count 0 = 1 ∧
        st'.updateQueue.Nodup := by
  refine ⟨rfl, ?_⟩
  obtain ⟨st', h1, h2, _, _, h5⟩ := updateItem_queue_dedup baseTree 0
    (fun j => by simp [baseTree, mkQuadTree, uniformStore, freshItem])
    (by simp [baseTree, mkQuadTree]) (by decide)
  exact ⟨st', h1, h2, h5⟩

/-- Elements of `firstOccur l` come from `l`. -/
theorem firstOccur_mem_aux :
    ∀ (n : Nat) (l : List ItemId), l.length ≤ n → ∀ x ∈ firstOccur l, x ∈ l := by
  intro n
  induction n with
  | zero =>
      intro l hl x hx
      rw [List.length_eq_zero.mp (Nat.le_zero.mp hl)] at hx ⊢
      simpa [firstOccur] using hx
  | succ n ih =>
      intro l hl x hx
      cases l with
      | nil => simpa [firstOccur] using hx
      | cons hd tl =>
          rw [firstOccur] at hx
          rcases List.mem_cons.mp hx with h | h
          · exact h ▸ List.mem_cons_self hd tl
          · have hlen : (tl.filter (fun y => !(y == hd))).length ≤ n := by
              have h1 := List.length_filter_le (fun y => !(y == hd)) tl
              simp at hl
              omega
            have h2 := ih _ hlen x h
            exact List.mem_cons_of_mem hd (List.mem_of_mem_filter h2)

/-- `firstOccur` is duplicate-free. -/
theorem firstOccur_nodup_aux :
    ∀ (n : Nat) (l : List ItemId), l.length ≤ n → (firstOccur l).Nodup := by
  intro n
  induction n with
  | zero =>
      intro l hl
      rw [List.length_eq_zero.mp (Nat.le_zero.mp hl)]
      simp [firstOccur]
  | succ n ih =>
      intro l hl
      cases l with
      | nil => simp [firstOccur]
      | cons hd tl =>
          rw [firstOccur]
          have hlen : (tl.filter (fun y => !(y == hd))).length ≤ n := by
            have h1 := List.length_filter_le (fun y => !(y == hd)) tl
            simp at hl
            omega
          refine List.nodup_cons.mpr ⟨?_, ih _ hlen⟩
          intro hmem
          have h2 := firstOccur_mem_aux n _ hlen hd hmem
          have h3 := List.of_mem_filter h2
          simp at h3

/-- `firstOccur` is duplicate-free (each first-enqueued item once). -/
theorem firstOccur_nodup (l : List ItemId) : (firstOccur l).Nodup :=
  firstOccur_nodup_aux l.length l (Nat.le_refl _)

/-- Replaying enqueues appends exactly the first occurrences of the ids not
already queued. -/
theorem enqueueAll_eq :
    ∀ (calls q : List ItemId),
      enqueueAll calls q = q ++ firstOccur (calls.filter (fun id => !(decide (id ∈ q)))) := by
  intro calls
  induction calls with
  | nil => intro q; simp [enqueueAll, firstOccur]
  | cons id rest ih =>
      intro q
      by_cases hm : id ∈ q
      · have h1 : enqueue q id = q := by simp [enqueue, hm]
        rw [enqueueAll, h1, ih q]
        have h2 : (id :: rest).filter (fun id' => !(decide (id' ∈ q)))
            = rest.filter (fun id' => !(decide (id' ∈ q))) := by
          simp [List.filter_cons, hm]
        rw [h2]
      · have h1 : enqueue q id = q ++ [id] := by simp [enqueue, hm]
        rw [enqueueAll, h1, ih (q ++ [id])]
        have h2 : (id :: rest).filter (fun id' => !(decide (id' ∈ q)))
            = id :: rest.filter (fun id' => !(decide (id' ∈ q))) := by
          simp [List.filter_cons, hm]
        rw [h2, firstOccur]
        have h3 : rest.filter (fun id' => !(decide (id' ∈ q ++ [id])))
            = (rest.filter (fun id' => !(decide (id' ∈ q)))).filter
                (fun y => !(y == id)) := by
          rw [List.filter_filter]
          apply List.filter_congr
          intro y _
          by_cases hy1 : y ∈ q <;> by_cases hy2 : y = id <;>
            simp [hy1, hy2, List.mem_append]
        rw [h3, List.append_assoc]
        rfl

/-- The drain loop of `update` notifies exactly the queue, in order. -/
theorem updateLoop_trace : ∀ (q : List ItemId) (s : Store), (updateLoop q s).1 = q := by
  intro q
  induction q with
  | nil => intro s; rfl
  | cons id rest ih => intro s; simp [updateLoop, ih]

/-- The drain loop of `update` clears exactly the QUEUED flags of the queue
members and touches nothing else. -/
theorem updateLoop_queued :
    ∀ (q : List ItemId) (s : Store) (j : ItemId),
      ((updateLoop q s).2 j).queued = if j ∈ q then false else (s j).queued := by
  intro q
  induction q with
  | nil => intro s j; simp [updateLoop]
  | cons id rest ih =>
      intro s j
      rw [updateLoop]
      simp only []
      rw [ih]
      by_cases h1 : j ∈ rest
      · simp [h1]
      · by_cases h2 : j = id
        · subst h2
          simp [h1, setStore_same]
        · simp [h1, h2, setStore_other _ _ _ _ h2]

/-- State bookkeeping of one successful `updateItem`: the queue receives the
item unless already present, QUEUED flags keep matching queue membership, and
root-containment of every item's bounds is untouched. -/
theorem updateItemOk_state (st : TreeState) (id : ItemId)
    (hcons : ∀ j, (st.store j).queued = true ↔ j ∈ st.updateQueue) :
    (updateItemOk st id).updateQueue = enqueue st.updateQueue id ∧
      (∀ j, ((updateItemOk st id).store j).queued = true ↔
        j ∈ (updateItemOk st id).updateQueue) ∧
      (∀ j, boundsInsideRoot (updateItemOk st id)
          (((updateItemOk st id).store j).insertionBounds)
        = boundsInsideRoot st ((st.store j).insertionBounds)) := by
  have hQA : ((addItem (removeItem st id).2 id).2).updateQueue = st.updateQueue := by
    rw [addItem_updateQueue, removeItem_updateQueue]
  have hqAj : ∀ j, (((addItem (removeItem st id).2 id).2).store j).queued
      = (st.store j).queued := by
    intro j
    rw [addItem_queued, removeItem_queued]
  have hbAj : ∀ j, boundsInsideRoot ((addItem (removeItem st id).2 id).2)
      ((((addItem (removeItem st id).2 id).2).store j).insertionBounds)
      = boundsInsideRoot st ((st.store j).insertionBounds) := by
    intro j
    rw [boundsInsideRoot_addItem, boundsInsideRoot_removeItem]
  by_cases hq : (st.store id).queued = true
  · have hok : updateItemOk st id = (addItem (removeItem st id).2 id).2 := by
      simp only [updateItemOk]
      rw [(hqAj id).trans hq]
      simp
    have hmem : id ∈ st.updateQueue := (hcons id).mp hq
    refine ⟨?_, ?_, ?_⟩
    · rw [hok, hQA, enqueue, if_pos hmem]
    · intro j
      rw [hok, hQA, hqAj j]
      exact hcons j
    · intro j
      rw [hok]
      exact hbAj j
  · have hq' : (st.store id).queued = false := Bool.eq_false_iff.mpr hq
    have hnm : id ∉ st.updateQueue := fun hm => by
      have h1 := (hcons id).mpr hm
      rw [hq'] at h1
      exact Bool.false_ne_true h1
    have hok : updateItemOk st id
        = { (addItem (removeItem st id).2 id).2 with
            updateQueue := ((addItem (removeItem st id).2 id).2).updateQueue ++ [id],
            store := setStore ((addItem (removeItem st id).2 id).2).store id
              { ((addItem (removeItem st id).2 id).2).store id with queued := true } } := by
      simp only [updateItemOk]
      rw [(hqAj id).trans hq']
      simp
    refine ⟨?_, ?_, ?_⟩
    · rw [hok]
      show ((addItem (removeItem st id).2 id).2).updateQueue ++ [id]
          = enqueue st.updateQueue id
      rw [hQA, enqueue, if_neg hnm]
    · intro j
      rw [hok]
      show (setStore ((addItem (removeItem st id).2 id).2).store id
          { ((addItem (removeItem st id).2 id).2).store id with queued := true } j).queued
            = true
          ↔ j ∈ ((addItem (removeItem st id).2 id).2).updateQueue ++ [id]
      by_cases hj : j = id
      · subst hj
        rw [setStore_same]
        simp
      · rw [setStore_other _ _ _ _ hj, hqAj j, hQA]
        simp only [List.mem_append, List.mem_singleton, hj, or_false]
        exact hcons j
    · intro j
      rw [hok]
      refine (boundsInsideRoot_congr ((addItem (removeItem st id).2 id).2) _ _ _
        rfl rfl rfl rfl ?_).trans (hbAj j)
      by_cases hj : j = id
      · subst hj
        show (setStore _ _ _ j).insertionBounds = _
        rw [setStore_same]
      · show (setStore _ _ _ j).insertionBounds = _
        rw [setStore_other _ _ _ _ hj]

/-- A sequence of `updateItem` calls on fitting bounds succeeds and replays
the dedup-enqueue effect on the queue. -/
theorem runUpdateItems_ok :
    ∀ (calls : List ItemId) (st : TreeState),
      (∀ j, (st.store j).queued = true ↔ j ∈ st.updateQueue) →
      (∀ id ∈ calls, boundsInsideRoot st ((st.store id).insertionBounds) = true) →
      ∃ st', runUpdateItems calls st = Except.ok st' ∧
        st'.updateQueue = enqueueAll calls st.updateQueue ∧
        (∀ j, (st'.store j).queued = true ↔ j ∈ st'.updateQueue) ∧
        (∀ j, boundsInsideRoot st' ((st'.store j).insertionBounds)
            = boundsInsideRoot st ((st.store j).insertionBounds)) := by
  intro calls
  induction calls with
  | nil =>
      intro st hcons _
      exact ⟨st, rfl, rfl, hcons, fun j => rfl⟩
  | cons id rest ih =>
      intro st hcons hb
      have hbid := hb id (List.mem_cons_self id rest)
      have hok := updateItem_eq_ok st id hbid
      obtain ⟨hqeq, hcons', hbpres⟩ := updateItemOk_state st id hcons
      have hb' : ∀ id' ∈ rest, boundsInsideRoot (updateItemOk st id)
          (((updateItemOk st id).store id').insertionBounds) = true := by
        intro id' h'
        rw [hbpres id']
        exact hb id' (List.mem_cons_of_mem id h')
      obtain ⟨st', h1, h2, h3, h4⟩ := ih (updateItemOk st id) hcons' hb'
      refine ⟨st', ?_, ?_, h3, ?_⟩
      · simp only [runUpdateItems, hok]
        exact h1
      · rw [h2, hqeq]
        rfl
      · intro j
        exact (h4 j).trans (hbpres j)

/-- C6: starting from a state with an empty pending queue and no QUEUED
flags, after any sequence of `updateItem` calls (on bounds that fit the
root), `update()` drains the queue in FIFO order: the items are notified in
the order their `updateItem` calls first enqueued them, each exactly once,
every drained item's QUEUED flag is cleared, and the queue is left empty. -/
theorem update_drains_fifo (calls : List ItemId) (st0 : TreeState)
    (hq0 : st0.updateQueue = [])
    (hflags : ∀ j, (st0.store j).queued = false)
    (hb : ∀ id ∈ calls, boundsInsideRoot st0 ((st0.store id).insertionBounds) = true) :
    ∃ stN, runUpdateItems calls st0 = Except.ok stN ∧
      (update stN).1 = firstOccur calls ∧
      (firstOccur calls).Nodup ∧
      (update stN).2.updateQueue = [] ∧
      ∀ j, ((update stN).2.store j).queued = false := by
  have hcons0 : ∀ j, (st0.store j).queued = true ↔ j ∈ st0.updateQueue := by
    intro j
    rw [hq0, hflags j]
    simp
  obtain ⟨stN, h1, h2, h3, _⟩ := runUpdateItems_ok calls st0 hcons0 hb
  have hqN : stN.updateQueue = firstOccur calls := by
    rw [h2, hq0, enqueueAll_eq]
    simp
  refine ⟨stN, h1, ?_, firstOccur_nodup calls, rfl, ?_⟩
  · show (updateLoop stN.updateQueue stN.store).1 = firstOccur calls
    rw [updateLoop_trace, hqN]
  · intro j
    show ((updateLoop stN.updateQueue stN.store).2 j).queued = false
    rw [updateLoop_queued]
    by_cases hj : j ∈ stN.updateQueue
    · simp [hj]
    · simp only [hj, if_false]
      exact Bool.eq_false_iff.mpr (fun hqj => hj ((h3 j).mp hqj))

/-- C6 witness: the call sequence [0, 1, 0] notifies 0 then 1, once each. -/
theorem update_drains_fifo_witness :
    firstOccur [0, 1, 0] = [0, 1] ∧
      ∃ stN, runUpdateItems [0, 1, 0] baseTree = Except.ok stN ∧
        (update stN).1 = firstOccur [0, 1, 0] ∧ (update stN).2.updateQueue = [] := by
  refine ⟨by simp [firstOccur], ?_⟩
  obtain ⟨stN, h1, h2, _, h4, _⟩ :=
    update_drains_fifo [0, 1, 0] baseTree rfl (fun _ => rfl) (by decide)
  exact ⟨stN, h1, h2, h4⟩

end CherryQuadTree
